import Mathlib

/-!
Verification of the sequential windowed replay buffer
(`dynamics_toolbox/rl/buffers/sequential_buffer.py`).

The buffer stores fixed-length windows cut out of variable-length episodes in
a circular array of capacity `max_size`.  Numpy arrays are embedded as nested
lists of integers; per-timestep observation/action vectors are `List Int`,
scalar rewards/terminals/masks are `Int`.  Numpy slice assignment
`row[a:b] = vals` is embedded by `writeSlice`, which overlays `vals` onto the
row starting at offset `a` and keeps the rest of the row unchanged (in
particular, positions the write does not touch keep whatever data was in the
slot before, exactly as in the source).
-/

/-- Overlay `vals` onto `row` starting at position `offset`; positions not
covered keep their old values, and values that would fall past the end of the
row are dropped (the embedding of numpy slice assignment `row[offset:...] = vals`
for in-bounds writes). -/
def writeSlice {α : Type} : List α → Nat → List α → List α
  | [], _, _ => []
  | x :: xs, 0, [] => x :: xs
  | _ :: xs, 0, v :: vs => v :: writeSlice xs 0 vs
  | x :: xs, n + 1, vs => x :: writeSlice xs n vs

/-- Set every position `≥ n` of the row to `0` (the embedding of
`row[n:] = 0`). -/
def zeroFrom : List Int → Nat → List Int
  | [], _ => []
  | _ :: xs, 0 => 0 :: zeroFrom xs 0
  | x :: xs, n + 1 => x :: zeroFrom xs n

/-- Index of the first entry different from `1`, mirroring
`np.argwhere(masks - 1).flatten()[0]` in `add_paths`. -/
def firstNonOne : List Int → Option Nat
  | [] => none
  | x :: xs => if x = 1 then (firstNonOne xs).map (· + 1) else some 0

/-- The true episode length used by `add_paths`: the index of the first
non-one mask entry when a mask is supplied and has one, otherwise the length
of the action array. -/
def pathLen (masks : Option (List Int)) (actLen : Nat) : Nat :=
  match masks with
  | none => actLen
  | some m => (firstNonOne m).getD actLen

/-- One episode as handed to `add_paths`: observations of length `T + 1`
(the last entry is the terminal next-observation), actions / rewards /
terminals of length `T`, and an optional validity mask of length `T`. -/
structure PathInput where
  observations : List (List Int)
  actions : List (List Int)
  rewards : List Int
  terminals : List Int
  masks : Option (List Int)
deriving DecidableEq

/-- The true length of an episode (`length` in `add_paths`). -/
def trueLen (p : PathInput) : Nat :=
  pathLen p.masks p.actions.length

/-- The state of `SequentialReplayBuffer`: six storage arrays of
`max_size` rows each, the write cursor `top` and the number of valid
windows `size`. -/
structure SequentialReplayBuffer where
  obs_dim : Nat
  act_dim : Nat
  max_size : Nat
  lookback : Nat
  observations : List (List (List Int))
  next_observations : List (List (List Int))
  actions : List (List (List Int))
  rewards : List (List Int)
  terminals : List (List Int)
  masks : List (List Int)
  top : Nat
  size : Nat
deriving DecidableEq

/-- `clear_buffer` (also the constructor): all storage arrays are allocated
to zero, `top = 0`, `size = 0`.  Actions and rewards have one extra leading
padding slot per window. -/
def clear_buffer (odim adim n l : Nat) : SequentialReplayBuffer :=
  { obs_dim := odim
  , act_dim := adim
  , max_size := n
  , lookback := l
  , observations := List.replicate n (List.replicate l (List.replicate odim 0))
  , next_observations := List.replicate n (List.replicate l (List.replicate odim 0))
  , actions := List.replicate n (List.replicate (l + 1) (List.replicate adim 0))
  , rewards := List.replicate n (List.replicate (l + 1) 0)
  , terminals := List.replicate n (List.replicate l 0)
  , masks := List.replicate n (List.replicate l 0)
  , top := 0
  , size := 0 }

/-- The data written by one iteration of the window loop in `add_paths`:
the window length `end - strt` and the six value slices. -/
structure WriteOp where
  wlen : Nat
  obsVals : List (List Int)
  nxtVals : List (List Int)
  actVals : List (List Int)
  rewVals : List Int
  termVals : List Int
  maskVals : List Int
deriving DecidableEq

/-- A default `WriteOp` used with `List.getD`. -/
def defaultOp : WriteOp := ⟨0, [], [], [], [], [], []⟩

/-- The body of one iteration of the window loop of `add_paths` for window
start `strt` and window end `en`: slices of the episode arrays, and the mask
values (`masks[strt:en]` when a mask is supplied, otherwise all ones). -/
def mkWriteOp (obs nxt acts : List (List Int)) (rews terms : List Int)
    (masks : Option (List Int)) (strt en : Nat) : WriteOp :=
  { wlen := en - strt
  , obsVals := (obs.drop strt).take (en - strt)
  , nxtVals := (nxt.drop strt).take (en - strt)
  , actVals := (acts.drop strt).take (en - strt)
  , rewVals := (rews.drop strt).take (en - strt)
  , termVals := (terms.drop strt).take (en - strt)
  , maskVals :=
      match masks with
      | some m => (m.drop strt).take (en - strt)
      | none => List.replicate (en - strt) 1 }

/-- The list of window writes that `add_paths` performs for one episode:
observations are split into `observations[:-1]` and
`next_observations = observations[1:]`, the true length is determined from
the mask, and one write is produced for every
`strt < max(length - lookback + 1, 1)` with `en = min(strt + lookback,
strt + length)`. -/
def writeOps (lookback : Nat) (p : PathInput) : List WriteOp :=
  let nxt := p.observations.drop 1
  let obs := p.observations.dropLast
  let length := pathLen p.masks p.actions.length
  (List.range (max (length - lookback + 1) 1)).map (fun strt =>
    mkWriteOp obs nxt p.actions p.rewards p.terminals p.masks strt
      (min (strt + lookback) (strt + length)))

/-- Apply one window write at the current `top` slot and `_advance`:
actions/rewards are written at positions `1 .. wlen`, observations /
next-observations / terminals at positions `0 .. wlen - 1`, the mask slice is
written at `0 .. wlen - 1` and the remainder of the mask row is zeroed; the
untouched positions of the other five rows keep their previous contents.
Then `top := (top + 1) % max_size` and `size` increments until `max_size`. -/
def applyWrite (b : SequentialReplayBuffer) (op : WriteOp) : SequentialReplayBuffer :=
  { b with
    actions := b.actions.set b.top (writeSlice (b.actions.getD b.top []) 1 op.actVals)
  , rewards := b.rewards.set b.top (writeSlice (b.rewards.getD b.top []) 1 op.rewVals)
  , observations :=
      b.observations.set b.top (writeSlice (b.observations.getD b.top []) 0 op.obsVals)
  , next_observations :=
      b.next_observations.set b.top
        (writeSlice (b.next_observations.getD b.top []) 0 op.nxtVals)
  , terminals := b.terminals.set b.top (writeSlice (b.terminals.getD b.top []) 0 op.termVals)
  , masks :=
      b.masks.set b.top (zeroFrom (writeSlice (b.masks.getD b.top []) 0 op.maskVals) op.wlen)
  , top := (b.top + 1) % b.max_size
  , size := if b.size < b.max_size then b.size + 1 else b.size }

/-- `add_paths` restricted to one episode: perform all window writes of the
episode in order. -/
def ingestPath (b : SequentialReplayBuffer) (p : PathInput) : SequentialReplayBuffer :=
  (writeOps b.lookback p).foldl applyWrite b

/-- `add_paths`: ingest a batch of episodes one after the other. -/
def add_paths (b : SequentialReplayBuffer) (ps : List PathInput) : SequentialReplayBuffer :=
  ps.foldl ingestPath b

/-- The contents of one storage slot, gathered across the six arrays. -/
structure Window where
  observations : List (List Int)
  next_observations : List (List Int)
  actions : List (List Int)
  rewards : List Int
  terminals : List Int
  masks : List Int
deriving DecidableEq

/-- Read slot `j` of the buffer. -/
def slotOf (b : SequentialReplayBuffer) (j : Nat) : Window :=
  { observations := b.observations.getD j []
  , next_observations := b.next_observations.getD j []
  , actions := b.actions.getD j []
  , rewards := b.rewards.getD j []
  , terminals := b.terminals.getD j []
  , masks := b.masks.getD j [] }

/-- The effect of one window write on the contents of the written slot. -/
def applyOpToSlot (w : Window) (op : WriteOp) : Window :=
  { observations := writeSlice w.observations 0 op.obsVals
  , next_observations := writeSlice w.next_observations 0 op.nxtVals
  , actions := writeSlice w.actions 1 op.actVals
  , rewards := writeSlice w.rewards 1 op.rewVals
  , terminals := writeSlice w.terminals 0 op.termVals
  , masks := zeroFrom (writeSlice w.masks 0 op.maskVals) op.wlen }

/-- The all-zero contents of a freshly cleared slot. -/
def zeroWindow (odim adim l : Nat) : Window :=
  { observations := List.replicate l (List.replicate odim 0)
  , next_observations := List.replicate l (List.replicate odim 0)
  , actions := List.replicate (l + 1) (List.replicate adim 0)
  , rewards := List.replicate (l + 1) 0
  , terminals := List.replicate l 0
  , masks := List.replicate l 0 }

/-- The embedding of `np.random.randint(0, size, n)`: given a stream `rng` of
raw draws it returns `n` indices in `[0, size)`, and it fails (numpy raises
`ValueError: low >= high`) exactly when `size = 0`, independently of `n`. -/
def npRandint (size n : Nat) (rng : List Nat) : Option (List Nat) :=
  if size = 0 then none
  else some ((List.range n).map (fun i => rng.getD i 0 % size))

/-- A sampled batch: the six arrays gathered at the drawn indices. -/
structure Batch where
  observations : List (List (List Int))
  next_observations : List (List (List Int))
  actions : List (List (List Int))
  rewards : List (List Int)
  terminals : List (List Int)
  masks : List (List Int)
deriving DecidableEq

/-- `sample_batch`: draw `num_samples` indices in `[0, size)` and gather the
six arrays at those indices; fails exactly when the random draw fails. -/
def sample_batch (b : SequentialReplayBuffer) (numSamples : Nat) (rng : List Nat) :
    Option Batch :=
  (npRandint b.size numSamples rng).map (fun idxs =>
    { observations := idxs.map (fun i => b.observations.getD i [])
    , next_observations := idxs.map (fun i => b.next_observations.getD i [])
    , actions := idxs.map (fun i => b.actions.getD i [])
    , rewards := idxs.map (fun i => b.rewards.getD i [])
    , terminals := idxs.map (fun i => b.terminals.getD i [])
    , masks := idxs.map (fun i => b.masks.getD i []) })

/-- Online `sample_starts`: draw indices in `[0, size)` and return the first
observation of each sampled window. -/
def sample_starts (b : SequentialReplayBuffer) (numSamples : Nat) (rng : List Nat) :
    Option (List (List Int)) :=
  (npRandint b.size numSamples rng).map (fun idxs =>
    idxs.map (fun i => (b.observations.getD i []).getD 0 []))

/-- The error conditions of the buffer API. -/
inductive BufferError where
  | notImplemented
deriving DecidableEq

/-- `add_step`: raises `NotImplementedError` before touching any state, so it
returns the error together with the unchanged buffer. -/
def add_step (b : SequentialReplayBuffer) (_obs _nxt _act : List Int)
    (_rew _terminal : Int) : Except BufferError Unit × SequentialReplayBuffer :=
  (Except.error BufferError.notImplemented, b)

/-- A flat transition dataset as given to `SequentialOfflineReplayBuffer`
(rewards and terminals already reshaped to one scalar per transition). -/
structure Dataset where
  observations : List (List Int)
  next_observations : List (List Int)
  actions : List (List Int)
  rewards : List Int
  terminals : List Int
deriving DecidableEq

/-- One flat transition of a dataset. -/
structure Transition where
  obs : List Int
  nxt : List Int
  act : List Int
  rew : Int
  term : Int
deriving DecidableEq

/-- The dataset as a flat list of transitions. -/
def transitionsOf (d : Dataset) : List Transition :=
  (List.range d.actions.length).map (fun i =>
    { obs := d.observations.getD i []
    , nxt := d.next_observations.getD i []
    , act := d.actions.getD i []
    , rew := d.rewards.getD i 0
    , term := d.terminals.getD i 0 })

/-- Modelled from the spec: `parse_into_trajectories`
(`dynamics_toolbox/utils/sarsa_data_util.py` is not part of the sources).
Per the spec, the flat stream is cut into episodes at every index `t` whose
terminal flag is set or where `next_observations[t]` differs from
`observations[t+1]`. -/
def groupEpisodes : List Transition → List (List Transition)
  | [] => []
  | [t] => [[t]]
  | t :: u :: rest =>
    let groups := groupEpisodes (u :: rest)
    if t.term ≠ 0 ∨ t.nxt ≠ u.obs then [t] :: groups
    else
      match groups with
      | [] => [[t]]
      | g :: gs => (t :: g) :: gs

/-- The true episode-start observations of a dataset: the first observation
of every episode recovered from the flat stream. -/
def episodeStarts (d : Dataset) : List (List Int) :=
  (groupEpisodes (transitionsOf d)).map (fun g => (g.map Transition.obs).getD 0 [])

/-- The episode that `SequentialOfflineReplayBuffer.__init__` hands to
`add_paths` for one recovered trajectory: the trajectory's observations with
`next_observations[[0]]` (the first next-observation row) appended, and its
actions, rewards and terminals; no mask. -/
def trajToPathInput (g : List Transition) : PathInput :=
  { observations := g.map Transition.obs ++ [(g.map Transition.nxt).getD 0 []]
  , actions := g.map Transition.act
  , rewards := g.map Transition.rew
  , terminals := g.map Transition.term
  , masks := none }

/-- The state of `SequentialOfflineReplayBuffer`: the windowed buffer plus
the flat `_starts` array kept for start-state sampling. -/
structure SequentialOfflineReplayBuffer where
  buf : SequentialReplayBuffer
  starts : List (List Int)
deriving DecidableEq

/-- `SequentialOfflineReplayBuffer.__init__`: build an empty buffer with
`obs_dim`/`act_dim` read off the data, capacity `len(data.actions)` and the
given lookback, set `_starts := data.observations` (the whole flat
observation array), split the data into trajectories and ingest each
recovered episode through `add_paths`. -/
def mkOffline (d : Dataset) (lookback : Nat) : SequentialOfflineReplayBuffer :=
  let b0 := clear_buffer (d.observations.getD 0 []).length (d.actions.getD 0 []).length
    d.actions.length lookback
  { buf := (groupEpisodes (transitionsOf d)).foldl
      (fun b g => ingestPath b (trajToPathInput g)) b0
  , starts := d.observations }

/-- Offline `sample_starts`: draw indices in `[0, len(starts))` and return
the corresponding rows of the retained flat `starts` array. -/
def sample_starts_offline (ob : SequentialOfflineReplayBuffer) (numSamples : Nat)
    (rng : List Nat) : Option (List (List Int)) :=
  (npRandint ob.starts.length numSamples rng).map (fun idxs =>
    idxs.map (fun i => ob.starts.getD i []))

/-! ### Derived predicates and concrete sample inputs -/

/-- All six storage arrays have exactly `max_size` rows. -/
def arraysLen (b : SequentialReplayBuffer) : Prop :=
  b.observations.length = b.max_size ∧
  b.next_observations.length = b.max_size ∧
  b.actions.length = b.max_size ∧
  b.rewards.length = b.max_size ∧
  b.terminals.length = b.max_size ∧
  b.masks.length = b.max_size

/-- Concatenation of the per-episode write lists of a batch. -/
def opsOf (lookback : Nat) (ps : List PathInput) : List WriteOp :=
  ps.foldr (fun p acc => writeOps lookback p ++ acc) []

/-- Decidable form of the mask shape contract: when a mask is supplied its
physical length equals the action-array length. -/
def maskLenOk (p : PathInput) : Prop :=
  (p.masks.map List.length).getD p.actions.length = p.actions.length

instance (p : PathInput) : Decidable (maskLenOk p) := by
  unfold maskLenOk
  infer_instance

/-- Shorthand for the shape contract of one episode input. -/
def wellFormedPath (p : PathInput) : Prop :=
  p.observations.length = p.actions.length + 1 ∧
  p.rewards.length = p.actions.length ∧
  p.terminals.length = p.actions.length ∧
  maskLenOk p

instance (p : PathInput) : Decidable (wellFormedPath p) := by
  unfold wellFormedPath maskLenOk
  infer_instance

/-- Concrete instantiation for `c1_coverage`: an episode of true length 3
with lookback 2 in a buffer of capacity 3. -/
def pC1 : PathInput :=
  ⟨[[1], [2], [3], [4]], [[10], [20], [30]], [5, 6, 7], [0, 0, 1], none⟩

/-- Every in-range action row starts with the zero action vector and every
reward row starts with reward `0`. -/
def headZero (adim : Nat) (b : SequentialReplayBuffer) : Prop :=
  ∀ j, j < b.max_size →
    (∃ t, b.actions.getD j [] = List.replicate adim 0 :: t) ∧
    (∃ t, b.rewards.getD j [] = (0 : Int) :: t)

/-- A length-2 episode used to pre-fill a slot of a capacity-1 buffer. -/
def pC4long : PathInput := ⟨[[1], [2], [3]], [[5], [6]], [7, 8], [0, 1], none⟩

/-- A short episode of true length 1 ingested afterwards (lookback 2). -/
def pC4short : PathInput := ⟨[[9], [10]], [[4]], [3], [1], none⟩

/-- A mask row consisting of some ones followed by some zeros (never a one
after a zero). -/
def onesThenZeros (row : List Int) : Prop :=
  ∃ a c, row = List.replicate a 1 ++ List.replicate c 0

/-- All mask rows of the buffer (in range or not) are ones-then-zeros. -/
def maskRowsOZ (b : SequentialReplayBuffer) : Prop :=
  ∀ j, onesThenZeros (b.masks.getD j [])

/-- An episode carrying an explicit mask `[1, 0]` inside a padded container. -/
def pC5 : PathInput := ⟨[[1], [2], [3]], [[4], [5]], [6, 7], [0, 1], some [1, 0]⟩

instance (b : SequentialReplayBuffer) : Decidable (arraysLen b) := by
  unfold arraysLen
  infer_instance

/-- A zero-true-length episode: its mask is zero already at index 0. -/
def pC10 : PathInput := ⟨[[5], [6]], [[7]], [8], [1], some [0]⟩

/-- A flat dataset that is exactly one episode of two transitions:
observations `[0], [1]`, next-observations `[1], [2]`. -/
def dC3 : Dataset := ⟨[[0], [1]], [[1], [2]], [[9], [8]], [4, 5], [0, 0]⟩

/-- The same episode as the online ingestion path would receive it, with the
full `T + 1` observation sequence `[0], [1], [2]`. -/
def pC3true : PathInput := ⟨[[0], [1], [2]], [[9], [8]], [4, 5], [0, 0], none⟩

/-- A flat dataset that is one episode of two transitions, whose only true
episode-start observation is `[0]`. -/
def dC9 : Dataset := ⟨[[0], [1]], [[1], [2]], [[3], [3]], [0, 0], [0, 0]⟩

/-! ### Helper lemmas about the list primitives -/

theorem writeSlice_nil {α : Type} (n : Nat) (vs : List α) : writeSlice [] n vs = [] := by
  cases n <;> cases vs <;> rfl

theorem writeSlice_vals_nil {α : Type} (l : List α) (n : Nat) : writeSlice l n [] = l := by
  induction l generalizing n with
  | nil => rfl
  | cons x xs ih => cases n with
    | zero => rfl
    | succ m => simpa [writeSlice] using ih m

theorem writeSlice_cons_succ {α : Type} (x : α) (xs : List α) (n : Nat) (vs : List α) :
    writeSlice (x :: xs) (n + 1) vs = x :: writeSlice xs n vs := rfl

theorem writeSlice_length {α : Type} (l : List α) (n : Nat) (vs : List α) :
    (writeSlice l n vs).length = l.length := by
  induction l generalizing n vs with
  | nil => simp [writeSlice_nil]
  | cons x xs ih =>
    cases n with
    | zero => cases vs with
      | nil => rfl
      | cons v vs' => simpa [writeSlice] using ih 0 vs'
    | succ m => simpa [writeSlice] using ih m vs

theorem writeSlice_full {α : Type} (l vs : List α) (h : vs.length = l.length) :
    writeSlice l 0 vs = vs := by
  induction l generalizing vs with
  | nil => cases vs with
    | nil => rfl
    | cons v vs' => simp at h
  | cons x xs ih =>
    cases vs with
    | nil => simp at h
    | cons v vs' =>
      simp only [List.length_cons, Nat.succ.injEq] at h
      simpa [writeSlice] using ih vs' h

theorem writeSlice_replicate {α : Type} (n : Nat) (a : α) (vs : List α)
    (h : vs.length ≤ n) :
    writeSlice (List.replicate n a) 0 vs = vs ++ List.replicate (n - vs.length) a := by
  induction vs generalizing n with
  | nil => simp [writeSlice_vals_nil]
  | cons v vs' ih =>
    cases n with
    | zero => simp at h
    | succ m =>
      simp only [List.length_cons, Nat.succ_le_succ_iff] at h
      simp only [List.replicate_succ, writeSlice, List.cons_append, List.length_cons]
      rw [ih m h, Nat.succ_sub_succ]

theorem zeroFrom_length (l : List Int) (n : Nat) : (zeroFrom l n).length = l.length := by
  induction l generalizing n with
  | nil => rfl
  | cons x xs ih => cases n with
    | zero => simpa [zeroFrom] using ih 0
    | succ m => simpa [zeroFrom] using ih m

theorem zeroFrom_ge (l : List Int) (n : Nat) (h : l.length ≤ n) : zeroFrom l n = l := by
  induction l generalizing n with
  | nil => rfl
  | cons x xs ih =>
    cases n with
    | zero => simp at h
    | succ m =>
      simp only [List.length_cons, Nat.succ_le_succ_iff] at h
      simpa [zeroFrom] using ih m h

theorem zeroFrom_zero_eq (l : List Int) : zeroFrom l 0 = List.replicate l.length 0 := by
  induction l with
  | nil => rfl
  | cons x xs ih => simpa [zeroFrom, List.replicate_succ] using ih

theorem zeroFrom_writeSlice_ones (old : List Int) (w : Nat) :
    zeroFrom (writeSlice old 0 (List.replicate w 1)) w =
      List.replicate (min w old.length) 1 ++ List.replicate (old.length - w) 0 := by
  induction old generalizing w with
  | nil => simp [writeSlice_nil, zeroFrom]
  | cons x xs ih =>
    cases w with
    | zero =>
      simp only [writeSlice_vals_nil, List.replicate, zeroFrom_zero_eq]
      simp
    | succ m =>
      simp only [List.replicate_succ, writeSlice, zeroFrom, List.length_cons]
      rw [ih m]
      have : min (m + 1) (xs.length + 1) = min m xs.length + 1 := by omega
      rw [this, List.replicate_succ]
      simp [Nat.succ_sub_succ]

theorem getD_set_self {α : Type} [Inhabited α] (l : List α) (i : Nat) (a d : α)
    (h : i < l.length) : (l.set i a).getD i d = a := by
  rw [List.getD_eq_getElem?_getD, List.getElem?_set_self', List.getElem?_eq_getElem h]
  rfl

theorem getD_set_ne {α : Type} (l : List α) (i j : Nat) (a d : α) (h : i ≠ j) :
    (l.set i a).getD j d = l.getD j d := by
  rw [List.getD_eq_getElem?_getD, List.getElem?_set_ne h, ← List.getD_eq_getElem?_getD]

theorem getD_set_oob {α : Type} (l : List α) (i j : Nat) (a d : α) (h : l.length ≤ i) :
    (l.set i a).getD j d = l.getD j d := by
  rw [List.set_eq_of_length_le h]

theorem getD_replicate' {α : Type} (n : Nat) (a d : α) (i : Nat) (h : i < n) :
    (List.replicate n a).getD i d = a := by
  rw [List.getD_eq_getElem?_getD, List.getElem?_replicate]
  simp [h]

theorem getD_range_map {α : Type} (n : Nat) (f : Nat → α) (s : Nat) (d : α) (h : s < n) :
    ((List.range n).map f).getD s d = f s := by
  rw [List.getD_eq_getElem?_getD, List.getElem?_map, List.getElem?_range h]
  rfl

theorem getD_drop (l : List Int) (s i : Nat) (d : Int) :
    (l.drop s).getD i d = l.getD (s + i) d := by
  rw [List.getD_eq_getElem?_getD, List.getD_eq_getElem?_getD, List.getElem?_drop]

theorem getD_take (l : List Int) (w i : Nat) (d : Int) (h : i < w) :
    (l.take w).getD i d = l.getD i d := by
  rw [List.getD_eq_getElem?_getD, List.getD_eq_getElem?_getD, List.getElem?_take_of_lt h]

theorem length_drop_take {α : Type} (l : List α) (s w : Nat) :
    ((l.drop s).take w).length = min w (l.length - s) := by
  simp [List.length_take, List.length_drop]

/-! ### Lemmas about the true-length computation -/

theorem firstNonOne_some_lt (m : List Int) (i : Nat) (h : firstNonOne m = some i) :
    i < m.length := by
  induction m generalizing i with
  | nil => simp [firstNonOne] at h
  | cons x xs ih =>
    by_cases hx : x = 1
    · simp only [firstNonOne, hx, if_pos rfl] at h
      cases hfx : firstNonOne xs with
      | none => rw [hfx] at h; simp at h
      | some j =>
        rw [hfx] at h
        simp only [Option.map_some'] at h
        cases h
        exact Nat.succ_lt_succ (ih j hfx)
    · simp only [firstNonOne, if_neg hx] at h
      cases h
      simp

theorem firstNonOne_ones_before (m : List Int) (i : Nat) (h : firstNonOne m = some i)
    (j : Nat) (hj : j < i) : m.getD j 0 = 1 := by
  induction m generalizing i j with
  | nil => simp [firstNonOne] at h
  | cons x xs ih =>
    by_cases hx : x = 1
    · simp only [firstNonOne, hx, if_pos rfl] at h
      cases hfx : firstNonOne xs with
      | none => rw [hfx] at h; simp at h
      | some k =>
        rw [hfx] at h
        simp only [Option.map_some'] at h
        cases h
        cases j with
        | zero => simpa using hx
        | succ j' =>
          rw [List.getD_cons_succ]
          exact ih k hfx j' (Nat.lt_of_succ_lt_succ hj)
    · simp only [firstNonOne, if_neg hx] at h
      cases h
      exact absurd hj (Nat.not_lt_zero j)

theorem firstNonOne_none_ones (m : List Int) (h : firstNonOne m = none)
    (j : Nat) (hj : j < m.length) : m.getD j 0 = 1 := by
  induction m generalizing j with
  | nil => simp at hj
  | cons x xs ih =>
    by_cases hx : x = 1
    · simp only [firstNonOne, hx, if_true, eq_self_iff_true, Option.map_eq_none'] at h
      cases j with
      | zero => simpa using hx
      | succ j' =>
        rw [List.getD_cons_succ]
        exact ih h j' (Nat.lt_of_succ_lt_succ hj)
    · simp [firstNonOne, if_neg hx] at h

theorem pathLen_none (alen : Nat) : pathLen none alen = alen := rfl

theorem pathLen_some (m : List Int) (alen : Nat) :
    pathLen (some m) alen = (firstNonOne m).getD alen := rfl

/-- All mask entries strictly before the computed true length are `1`. -/
theorem pathLen_ones (m : List Int) (alen : Nat) (hlen : m.length = alen)
    (j : Nat) (hj : j < pathLen (some m) alen) : m.getD j 0 = 1 := by
  rw [pathLen_some] at hj
  cases hfx : firstNonOne m with
  | none =>
    rw [hfx] at hj
    exact firstNonOne_none_ones m hfx j (by simpa [hlen] using hj)
  | some i =>
    rw [hfx] at hj
    exact firstNonOne_ones_before m i hfx j (by simpa using hj)

/-- The true length never exceeds the action-array length (for a mask of the
same physical length). -/
theorem pathLen_le (masks : Option (List Int)) (alen : Nat)
    (hlen : ∀ m, masks = some m → m.length = alen) : pathLen masks alen ≤ alen := by
  cases masks with
  | none => rw [pathLen_none]
  | some m =>
    rw [pathLen_some]
    cases hfx : firstNonOne m with
    | none => simp
    | some i =>
      have h1 := firstNonOne_some_lt m i hfx
      have hm := hlen m rfl
      simp only [Option.getD_some]
      omega

/-- A slice of `m` that stays strictly below the computed true length is all
ones. -/
theorem ones_slice (m : List Int) (strt w : Nat) (hlen : strt + w ≤ m.length)
    (hones : ∀ j, j < strt + w → m.getD j 0 = 1) :
    (m.drop strt).take w = List.replicate w 1 := by
  induction m generalizing strt w with
  | nil =>
    have : w = 0 := by simp at hlen; omega
    simp [this]
  | cons x xs ih =>
    cases strt with
    | zero =>
      cases w with
      | zero => simp
      | succ w' =>
        simp only [List.drop_zero, List.take_succ_cons, List.replicate_succ]
        have hx : x = 1 := by simpa using hones 0 (by omega)
        have hxs : xs.take w' = List.replicate w' 1 := by
          have := ih 0 w' (by simp at hlen ⊢; omega)
            (fun j hj => by simpa using hones (j + 1) (by omega))
          simpa using this
        rw [hx, hxs]
    | succ s =>
      simp only [List.drop_succ_cons]
      exact ih s w (by simp at hlen ⊢; omega)
        (fun j hj => by simpa using hones (j + 1) (by omega))

/-! ### Shape and step lemmas for the buffer -/

theorem arraysLen_clear (odim adim n l : Nat) : arraysLen (clear_buffer odim adim n l) := by
  simp [arraysLen, clear_buffer]

theorem arraysLen_applyWrite (b : SequentialReplayBuffer) (op : WriteOp)
    (h : arraysLen b) : arraysLen (applyWrite b op) := by
  obtain ⟨h1, h2, h3, h4, h5, h6⟩ := h
  simp [arraysLen, applyWrite, h1, h2, h3, h4, h5, h6]

theorem applyWrite_max_size (b : SequentialReplayBuffer) (op : WriteOp) :
    (applyWrite b op).max_size = b.max_size := rfl

theorem applyWrite_lookback (b : SequentialReplayBuffer) (op : WriteOp) :
    (applyWrite b op).lookback = b.lookback := rfl

theorem applyWrite_top (b : SequentialReplayBuffer) (op : WriteOp) :
    (applyWrite b op).top = (b.top + 1) % b.max_size := rfl

theorem applyWrite_size (b : SequentialReplayBuffer) (op : WriteOp) :
    (applyWrite b op).size = if b.size < b.max_size then b.size + 1 else b.size := rfl

/-- The write touches only the slot at the write cursor. -/
theorem slotOf_applyWrite_ne (b : SequentialReplayBuffer) (op : WriteOp) (j : Nat)
    (h : b.top ≠ j) : slotOf (applyWrite b op) j = slotOf b j := by
  simp only [slotOf, applyWrite]
  rw [getD_set_ne _ _ _ _ _ h, getD_set_ne _ _ _ _ _ h, getD_set_ne _ _ _ _ _ h,
    getD_set_ne _ _ _ _ _ h, getD_set_ne _ _ _ _ _ h, getD_set_ne _ _ _ _ _ h]

/-- The write turns the slot at the cursor into `applyOpToSlot` of its old
contents (when the cursor is in range). -/
theorem slotOf_applyWrite_self (b : SequentialReplayBuffer) (op : WriteOp)
    (harr : arraysLen b) (h : b.top < b.max_size) :
    slotOf (applyWrite b op) b.top = applyOpToSlot (slotOf b b.top) op := by
  obtain ⟨h1, h2, h3, h4, h5, h6⟩ := harr
  simp only [slotOf, applyWrite, applyOpToSlot, Window.mk.injEq]
  exact ⟨getD_set_self _ _ _ _ (by omega), getD_set_self _ _ _ _ (by omega),
    getD_set_self _ _ _ _ (by omega), getD_set_self _ _ _ _ (by omega),
    getD_set_self _ _ _ _ (by omega), getD_set_self _ _ _ _ (by omega)⟩

/-! ### Fold lemmas: the effect of a sequence of window writes -/

theorem foldl_max_size (ops : List WriteOp) (b : SequentialReplayBuffer) :
    (ops.foldl applyWrite b).max_size = b.max_size := by
  induction ops generalizing b with
  | nil => rfl
  | cons op rest ih => simpa [List.foldl_cons] using ih (applyWrite b op)

theorem foldl_lookback (ops : List WriteOp) (b : SequentialReplayBuffer) :
    (ops.foldl applyWrite b).lookback = b.lookback := by
  induction ops generalizing b with
  | nil => rfl
  | cons op rest ih => simpa [List.foldl_cons] using ih (applyWrite b op)

theorem foldl_arraysLen (ops : List WriteOp) (b : SequentialReplayBuffer)
    (h : arraysLen b) : arraysLen (ops.foldl applyWrite b) := by
  induction ops generalizing b with
  | nil => exact h
  | cons op rest ih => exact ih (applyWrite b op) (arraysLen_applyWrite b op h)

/-- After `k` writes the cursor has moved `k` steps around the ring. -/
theorem foldl_top (ops : List WriteOp) (b : SequentialReplayBuffer)
    (h : b.top < b.max_size) :
    (ops.foldl applyWrite b).top = (b.top + ops.length) % b.max_size := by
  induction ops generalizing b with
  | nil => simp [Nat.mod_eq_of_lt h]
  | cons op rest ih =>
    have hN : 0 < b.max_size := by omega
    have h' : (applyWrite b op).top < (applyWrite b op).max_size := by
      rw [applyWrite_top, applyWrite_max_size]
      exact Nat.mod_lt _ hN
    rw [List.foldl_cons, ih (applyWrite b op) h', applyWrite_top, applyWrite_max_size,
      Nat.mod_add_mod, List.length_cons]
    congr 1
    omega

/-- After `k` writes the size has grown by `k`, saturating at capacity. -/
theorem foldl_size (ops : List WriteOp) (b : SequentialReplayBuffer)
    (h : b.size ≤ b.max_size) :
    (ops.foldl applyWrite b).size = min (b.size + ops.length) b.max_size := by
  induction ops generalizing b with
  | nil => simp [Nat.min_eq_left h]
  | cons op rest ih =>
    have h' : (applyWrite b op).size ≤ (applyWrite b op).max_size := by
      rw [applyWrite_size, applyWrite_max_size]
      split <;> omega
    rw [List.foldl_cons, ih (applyWrite b op) h', applyWrite_size, applyWrite_max_size,
      List.length_cons]
    split <;> omega

/-- A sequence of writes that never moves the cursor onto slot `j` leaves
slot `j` unchanged. -/
theorem foldl_slotOf_ne (ops : List WriteOp) (b : SequentialReplayBuffer) (j : Nat)
    (harr : arraysLen b)
    (h : ∀ i, i < ops.length → (b.top + i) % b.max_size ≠ j) :
    slotOf (ops.foldl applyWrite b) j = slotOf b j := by
  induction ops generalizing b with
  | nil => rfl
  | cons op rest ih =>
    rw [List.foldl_cons]
    have htop0 : b.top % b.max_size ≠ j := by simpa using h 0 (by simp)
    have hone : slotOf (applyWrite b op) j = slotOf b j := by
      by_cases hlt : b.top < b.max_size
      · exact slotOf_applyWrite_ne b op j (by rwa [Nat.mod_eq_of_lt hlt] at htop0)
      · by_cases hz : b.max_size = 0
        · exact slotOf_applyWrite_ne b op j (by rwa [hz, Nat.mod_zero] at htop0)
        · obtain ⟨h1, h2, h3, h4, h5, h6⟩ := harr
          simp only [slotOf, applyWrite]
          rw [List.set_eq_of_length_le (by omega), List.set_eq_of_length_le (by omega),
            List.set_eq_of_length_le (by omega), List.set_eq_of_length_le (by omega),
            List.set_eq_of_length_le (by omega), List.set_eq_of_length_le (by omega)]
    rw [← hone]
    refine ih (applyWrite b op) (arraysLen_applyWrite b op harr) (fun i hi => ?_)
    rw [applyWrite_top, applyWrite_max_size, Nat.mod_add_mod]
    have := h (i + 1) (by simpa using Nat.succ_lt_succ hi)
    simpa [Nat.add_assoc, Nat.add_comm 1 i] using this

/-- When the write sequence fits between the cursor and the end of the ring
(no wraparound), slot `top + s` ends up as the single write number `s`
applied to its previous contents. -/
theorem foldl_slotOf (ops : List WriteOp) (b : SequentialReplayBuffer) (s : Nat)
    (harr : arraysLen b) (hs : s < ops.length) (hfit : b.top + ops.length ≤ b.max_size) :
    slotOf (ops.foldl applyWrite b) (b.top + s) =
      applyOpToSlot (slotOf b (b.top + s)) (ops.getD s defaultOp) := by
  induction ops generalizing b s with
  | nil => simp at hs
  | cons op rest ih =>
    have hN : 0 < b.max_size := by
      simp only [List.length_cons] at hfit
      omega
    have htoplt : b.top < b.max_size := by
      simp only [List.length_cons] at hfit
      omega
    rw [List.foldl_cons]
    cases s with
    | zero =>
      have hself : slotOf (applyWrite b op) b.top = applyOpToSlot (slotOf b b.top) op :=
        slotOf_applyWrite_self b op harr htoplt
      have hrest : slotOf (rest.foldl applyWrite (applyWrite b op)) b.top =
          slotOf (applyWrite b op) b.top := by
        refine foldl_slotOf_ne rest (applyWrite b op) b.top
          (arraysLen_applyWrite b op harr) (fun i hi => ?_)
        rw [applyWrite_top, applyWrite_max_size, Nat.mod_add_mod]
        have hlt : b.top + 1 + i < b.max_size := by
          simp only [List.length_cons] at hfit
          omega
        rw [Nat.mod_eq_of_lt hlt]
        omega
      simp [hrest, hself]
    | succ s' =>
      have hs' : s' < rest.length := by simpa using Nat.lt_of_succ_lt_succ hs
      have htop1 : (applyWrite b op).top = b.top + 1 := by
        rw [applyWrite_top, Nat.mod_eq_of_lt]
        simp only [List.length_cons] at hfit
        omega
      have hfit' : (applyWrite b op).top + rest.length ≤ (applyWrite b op).max_size := by
        rw [htop1, applyWrite_max_size]
        simp only [List.length_cons] at hfit
        omega
      have := ih (applyWrite b op) s' (arraysLen_applyWrite b op harr) hs' hfit'
      rw [htop1] at this
      have heq : b.top + 1 + s' = b.top + (s' + 1) := by omega
      rw [heq] at this
      rw [this, slotOf_applyWrite_ne b op (b.top + (s' + 1)) (by omega)]
      rfl

/-- `add_paths` is the fold of all per-episode writes in order. -/
theorem add_paths_eq_foldl (b : SequentialReplayBuffer) (ps : List PathInput) :
    add_paths b ps = (opsOf b.lookback ps).foldl applyWrite b := by
  induction ps generalizing b with
  | nil => rfl
  | cons p rest ih =>
    rw [add_paths, List.foldl_cons, opsOf, List.foldr_cons, List.foldl_append]
    have hlb : (ingestPath b p).lookback = b.lookback := foldl_lookback _ b
    have : add_paths (ingestPath b p) rest =
        (opsOf (ingestPath b p).lookback rest).foldl applyWrite (ingestPath b p) := ih _
    rw [← add_paths, this, hlb]
    rfl

/-! ### The shape of the per-episode write list -/

theorem writeOps_length (lookback : Nat) (p : PathInput) :
    (writeOps lookback p).length = max (trueLen p - lookback + 1) 1 := by
  simp [writeOps, trueLen]

theorem writeOps_getD (lookback : Nat) (p : PathInput) (s : Nat)
    (hs : s < max (trueLen p - lookback + 1) 1) :
    (writeOps lookback p).getD s defaultOp =
      mkWriteOp p.observations.dropLast (p.observations.drop 1) p.actions p.rewards
        p.terminals p.masks s (min (s + lookback) (s + trueLen p)) := by
  unfold writeOps
  simp only
  rw [getD_range_map _ _ _ _ (by simpa [trueLen] using hs)]
  rfl

/-- The start offset of a window stays within the true length of the
episode. -/
theorem start_bound (s T lookback : Nat) (hs : s < max (T - lookback + 1) 1) :
    s + min lookback T ≤ T := by omega

/-- The contents of the `s`-th window write of an episode, for a well-shaped
input: all six value lists are the corresponding episode slices of length
`min lookback T`, and the mask values are all ones. -/
theorem writeOps_spec (lookback : Nat) (p : PathInput) (s : Nat)
    (hobs : p.observations.length = p.actions.length + 1)
    (hrew : p.rewards.length = p.actions.length)
    (hterm : p.terminals.length = p.actions.length)
    (hmask : ∀ m, p.masks = some m → m.length = p.actions.length)
    (hs : s < max (trueLen p - lookback + 1) 1) :
    ((writeOps lookback p).getD s defaultOp).wlen = min lookback (trueLen p) ∧
    ((writeOps lookback p).getD s defaultOp).obsVals =
      (p.observations.dropLast.drop s).take (min lookback (trueLen p)) ∧
    ((writeOps lookback p).getD s defaultOp).nxtVals =
      ((p.observations.drop 1).drop s).take (min lookback (trueLen p)) ∧
    ((writeOps lookback p).getD s defaultOp).actVals =
      (p.actions.drop s).take (min lookback (trueLen p)) ∧
    ((writeOps lookback p).getD s defaultOp).rewVals =
      (p.rewards.drop s).take (min lookback (trueLen p)) ∧
    ((writeOps lookback p).getD s defaultOp).termVals =
      (p.terminals.drop s).take (min lookback (trueLen p)) ∧
    ((writeOps lookback p).getD s defaultOp).maskVals =
      List.replicate (min lookback (trueLen p)) 1 ∧
    ((writeOps lookback p).getD s defaultOp).obsVals.length = min lookback (trueLen p) ∧
    ((writeOps lookback p).getD s defaultOp).nxtVals.length = min lookback (trueLen p) ∧
    ((writeOps lookback p).getD s defaultOp).actVals.length = min lookback (trueLen p) ∧
    ((writeOps lookback p).getD s defaultOp).rewVals.length = min lookback (trueLen p) ∧
    ((writeOps lookback p).getD s defaultOp).termVals.length = min lookback (trueLen p) := by
  have hTle : trueLen p ≤ p.actions.length := pathLen_le p.masks p.actions.length hmask
  have hw : min (s + lookback) (s + trueLen p) - s = min lookback (trueLen p) := by omega
  have hsw : s + min lookback (trueLen p) ≤ trueLen p := start_bound s _ lookback hs
  rw [writeOps_getD lookback p s hs]
  unfold mkWriteOp
  simp only [hw]
  refine ⟨trivial, trivial, trivial, trivial, trivial, trivial, ?_, ?_, ?_, ?_, ?_, ?_⟩
  · cases hms : p.masks with
    | none => rfl
    | some m =>
      simp only
      have hT : trueLen p = pathLen (some m) p.actions.length := by rw [trueLen, hms]
      refine ones_slice m s (min lookback (trueLen p)) (by rw [hmask m hms]; omega)
        (fun j hj => pathLen_ones m p.actions.length (hmask m hms) j ?_)
      rw [← hT]
      omega
  all_goals simp only [List.length_take, List.length_drop, List.length_dropLast,
    hobs, hrew, hterm]
  all_goals omega

/-! ### Window contents written into freshly cleared slots -/

theorem slotOf_clear (odim adim n l : Nat) (s : Nat) (hs : s < n) :
    slotOf (clear_buffer odim adim n l) s = zeroWindow odim adim l := by
  simp only [slotOf, clear_buffer, zeroWindow, Window.mk.injEq]
  exact ⟨getD_replicate' _ _ _ _ hs, getD_replicate' _ _ _ _ hs, getD_replicate' _ _ _ _ hs,
    getD_replicate' _ _ _ _ hs, getD_replicate' _ _ _ _ hs, getD_replicate' _ _ _ _ hs⟩

/-- Writing a window of valid length `w ≤ lookback` into an all-zero slot:
the six rows become the value slices followed by zero padding, with the extra
all-zero leading slot for actions and rewards. -/
theorem applyOpToSlot_zeroWindow (odim adim l w : Nat) (op : WriteOp)
    (hwlen : op.wlen = w) (hwl : w ≤ l)
    (ho : op.obsVals.length = w) (hn : op.nxtVals.length = w)
    (ha : op.actVals.length = w) (hr : op.rewVals.length = w)
    (ht : op.termVals.length = w) (hm : op.maskVals = List.replicate w 1) :
    applyOpToSlot (zeroWindow odim adim l) op =
      { observations := op.obsVals ++ List.replicate (l - w) (List.replicate odim 0)
      , next_observations := op.nxtVals ++ List.replicate (l - w) (List.replicate odim 0)
      , actions :=
          List.replicate adim 0 :: (op.actVals ++ List.replicate (l - w) (List.replicate adim 0))
      , rewards := 0 :: (op.rewVals ++ List.replicate (l - w) 0)
      , terminals := op.termVals ++ List.replicate (l - w) 0
      , masks := List.replicate w 1 ++ List.replicate (l - w) 0 } := by
  simp only [applyOpToSlot, zeroWindow, Window.mk.injEq]
  refine ⟨?_, ?_, ?_, ?_, ?_, ?_⟩
  · rw [writeSlice_replicate _ _ _ (by omega), ho]
  · rw [writeSlice_replicate _ _ _ (by omega), hn]
  · rw [List.replicate_succ, writeSlice_cons_succ, writeSlice_replicate _ _ _ (by omega), ha]
  · rw [List.replicate_succ, writeSlice_cons_succ, writeSlice_replicate _ _ _ (by omega), hr]
  · rw [writeSlice_replicate _ _ _ (by omega), ht]
  · rw [hm, hwlen, zeroFrom_writeSlice_ones]
    simp [Nat.min_eq_left hwl]

/-- Ingesting one well-shaped episode into a freshly cleared buffer with
enough capacity: window `s` lands in slot `s` and consists of the episode
slices starting at offset `s`, padded with zeros up to the lookback, with
all-ones mask over the valid region. -/
theorem fresh_slot (odim adim n l : Nat) (p : PathInput) (s : Nat)
    (hobs : p.observations.length = p.actions.length + 1)
    (hrew : p.rewards.length = p.actions.length)
    (hterm : p.terminals.length = p.actions.length)
    (hmask : ∀ m, p.masks = some m → m.length = p.actions.length)
    (hcap : max (trueLen p - l + 1) 1 ≤ n)
    (hs : s < max (trueLen p - l + 1) 1) :
    slotOf (add_paths (clear_buffer odim adim n l) [p]) s =
      { observations := (p.observations.dropLast.drop s).take (min l (trueLen p)) ++
          List.replicate (l - min l (trueLen p)) (List.replicate odim 0)
      , next_observations := ((p.observations.drop 1).drop s).take (min l (trueLen p)) ++
          List.replicate (l - min l (trueLen p)) (List.replicate odim 0)
      , actions := List.replicate adim 0 ::
          ((p.actions.drop s).take (min l (trueLen p)) ++
            List.replicate (l - min l (trueLen p)) (List.replicate adim 0))
      , rewards := 0 :: ((p.rewards.drop s).take (min l (trueLen p)) ++
          List.replicate (l - min l (trueLen p)) 0)
      , terminals := (p.terminals.drop s).take (min l (trueLen p)) ++
          List.replicate (l - min l (trueLen p)) 0
      , masks := List.replicate (min l (trueLen p)) 1 ++
          List.replicate (l - min l (trueLen p)) 0 } := by
  have hone : add_paths (clear_buffer odim adim n l) [p] =
      (writeOps l p).foldl applyWrite (clear_buffer odim adim n l) := rfl
  have hlen : s < (writeOps l p).length := by rw [writeOps_length]; exact hs
  have hfold := foldl_slotOf (writeOps l p) (clear_buffer odim adim n l) s
    (arraysLen_clear odim adim n l) hlen
    (by rw [writeOps_length]; simpa [clear_buffer] using hcap)
  have htop0 : (clear_buffer odim adim n l).top = 0 := rfl
  rw [htop0, Nat.zero_add] at hfold
  rw [hone, hfold, slotOf_clear odim adim n l s (by omega)]
  obtain ⟨h1, h2, h3, h4, h5, h6, h7, h8, h9, h10, h11, h12⟩ :=
    writeOps_spec l p s hobs hrew hterm hmask hs
  rw [applyOpToSlot_zeroWindow odim adim l (min l (trueLen p)) _ h1 (by omega)
    h8 h9 h10 h11 h12 h7, h2, h3, h4, h5, h6]

theorem maskLenOk_spec (p : PathInput) (h : maskLenOk p) :
    ∀ m, p.masks = some m → m.length = p.actions.length := by
  intro m hm
  rw [maskLenOk, hm] at h
  simpa using h

/-- C1: for a well-shaped episode of true length `T ≥ L` ingested via
`add_paths` into a fresh buffer with capacity at least `T - L + 1`, ingestion
performs exactly `T - L + 1` window writes (so `size` ends at `T - L + 1`),
and for every start offset `s ≤ T - L` slot `s` holds precisely the length-`L`
slice of the episode beginning at offset `s` (with the zero-padded leading
action/reward slot and an all-ones mask). -/
theorem c1_coverage (odim adim n l : Nat) (p : PathInput)
    (hwf : wellFormedPath p) (hTL : l ≤ trueLen p) (hcap : trueLen p - l + 1 ≤ n) :
    (writeOps l p).length = trueLen p - l + 1 ∧
    (add_paths (clear_buffer odim adim n l) [p]).size = trueLen p - l + 1 ∧
    (add_paths (clear_buffer odim adim n l) [p]).top = (trueLen p - l + 1) % n ∧
    ∀ s, s ≤ trueLen p - l →
      slotOf (add_paths (clear_buffer odim adim n l) [p]) s =
        { observations := (p.observations.dropLast.drop s).take l
        , next_observations := ((p.observations.drop 1).drop s).take l
        , actions := List.replicate adim 0 :: (p.actions.drop s).take l
        , rewards := 0 :: (p.rewards.drop s).take l
        , terminals := (p.terminals.drop s).take l
        , masks := List.replicate l 1 } := by
  obtain ⟨hobs, hrew, hterm, hmask⟩ := hwf
  have hmask' := maskLenOk_spec p hmask
  have hmax : max (trueLen p - l + 1) 1 = trueLen p - l + 1 := by omega
  have hn : 0 < n := by omega
  have hfoldform : add_paths (clear_buffer odim adim n l) [p] =
      (writeOps l p).foldl applyWrite (clear_buffer odim adim n l) := rfl
  refine ⟨by rw [writeOps_length, hmax], ?_, ?_, ?_⟩
  · rw [hfoldform, foldl_size _ _ (by simp [clear_buffer]), writeOps_length, hmax]
    simp only [clear_buffer]
    omega
  · rw [hfoldform, foldl_top _ _ (by simpa [clear_buffer] using hn), writeOps_length, hmax]
    simp [clear_buffer]
  · intro s hsle
    have hs : s < max (trueLen p - l + 1) 1 := by omega
    have := fresh_slot odim adim n l p s hobs hrew hterm hmask' (by omega) hs
    rw [this]
    have hmin : min l (trueLen p) = l := Nat.min_eq_left hTL
    simp [hmin]

theorem c1_coverage_witness :
    (wellFormedPath pC1 ∧ 2 ≤ trueLen pC1 ∧ trueLen pC1 - 2 + 1 ≤ 3) ∧
    ((writeOps 2 pC1).length = trueLen pC1 - 2 + 1 ∧
    (add_paths (clear_buffer 1 1 3 2) [pC1]).size = trueLen pC1 - 2 + 1 ∧
    (add_paths (clear_buffer 1 1 3 2) [pC1]).top = (trueLen pC1 - 2 + 1) % 3 ∧
    ∀ s, s ≤ trueLen pC1 - 2 →
      slotOf (add_paths (clear_buffer 1 1 3 2) [pC1]) s =
        { observations := (pC1.observations.dropLast.drop s).take 2
        , next_observations := ((pC1.observations.drop 1).drop s).take 2
        , actions := List.replicate 1 0 :: (pC1.actions.drop s).take 2
        , rewards := 0 :: (pC1.rewards.drop s).take 2
        , terminals := (pC1.terminals.drop s).take 2
        , masks := List.replicate 2 1 }) :=
  ⟨⟨by decide, by decide, by decide⟩,
    c1_coverage 1 1 3 2 pC1 (by decide) (by decide) (by decide)⟩

/-! ### The leading action/reward padding slot is never written -/

theorem headZero_clear (odim adim n l : Nat) : headZero adim (clear_buffer odim adim n l) := by
  intro j hj
  constructor
  · exact ⟨List.replicate l (List.replicate adim 0), by
      simp only [clear_buffer]
      rw [getD_replicate' _ _ _ _ (show j < n from hj), List.replicate_succ]⟩
  · exact ⟨List.replicate l 0, by
      simp only [clear_buffer]
      rw [getD_replicate' _ _ _ _ (show j < n from hj), List.replicate_succ]⟩

theorem headZero_applyWrite (adim : Nat) (b : SequentialReplayBuffer) (op : WriteOp)
    (harr : arraysLen b) (h : headZero adim b) : headZero adim (applyWrite b op) := by
  intro j hj
  rw [applyWrite_max_size] at hj
  obtain ⟨h1, h2, h3, h4, h5, h6⟩ := harr
  obtain ⟨⟨ta, hta⟩, ⟨tr, htr⟩⟩ := h j hj
  by_cases htop : b.top = j
  · subst htop
    constructor
    · refine ⟨writeSlice ta 0 op.actVals, ?_⟩
      show (b.actions.set b.top (writeSlice (b.actions.getD b.top []) 1 op.actVals)).getD
        b.top [] = _
      rw [getD_set_self _ _ _ _ (by omega), hta, writeSlice_cons_succ]
    · refine ⟨writeSlice tr 0 op.rewVals, ?_⟩
      show (b.rewards.set b.top (writeSlice (b.rewards.getD b.top []) 1 op.rewVals)).getD
        b.top [] = _
      rw [getD_set_self _ _ _ _ (by omega), htr, writeSlice_cons_succ]
  · constructor
    · exact ⟨ta, by
        show (b.actions.set b.top _).getD j [] = _
        rw [getD_set_ne _ _ _ _ _ htop, hta]⟩
    · exact ⟨tr, by
        show (b.rewards.set b.top _).getD j [] = _
        rw [getD_set_ne _ _ _ _ _ htop, htr]⟩

theorem headZero_foldl (adim : Nat) (ops : List WriteOp) (b : SequentialReplayBuffer)
    (harr : arraysLen b) (h : headZero adim b) :
    headZero adim (ops.foldl applyWrite b) := by
  induction ops generalizing b with
  | nil => exact h
  | cons op rest ih =>
    exact ih (applyWrite b op) (arraysLen_applyWrite b op harr)
      (headZero_applyWrite adim b op harr h)

/-- After any sequence of `add_paths` calls on a fresh buffer, the leading
action/reward padding slot of every in-range row is still zero. -/
theorem headZero_add_paths (odim adim n l : Nat) (ps : List PathInput) :
    headZero adim (add_paths (clear_buffer odim adim n l) ps) := by
  rw [add_paths_eq_foldl]
  exact headZero_foldl adim _ _ (arraysLen_clear odim adim n l)
    (headZero_clear odim adim n l)

/-! ### C4: short-episode padding -/

/-- C4 fails as stated: after a capacity-1 buffer has held a longer window,
ingesting an episode of true length `T = 1 < L = 2` writes one window whose
mask is `[1, 0]`, yet the observation slot at position `1 ≥ T` still holds the
stale value `[2]` of the overwritten window rather than zero. -/
theorem c4_short_episode_cex :
    trueLen pC4short < 2 ∧
    (slotOf (add_paths (add_paths (clear_buffer 1 1 1 2) [pC4long]) [pC4short]) 0).masks
      = [1, 0] ∧
    (slotOf (add_paths (add_paths (clear_buffer 1 1 1 2) [pC4long]) [pC4short]) 0).observations
      = [[9], [2]] ∧
    ¬ (slotOf (add_paths (add_paths (clear_buffer 1 1 1 2) [pC4long]) [pC4short])
        0).observations.getD 1 [] = List.replicate 1 0 := by
  exact ⟨by decide, by decide, by decide, by decide⟩

/-- C4 amended: an episode of true length `T < L` ingested via `add_paths`
writes exactly one window; its mask is exactly `T` ones followed by `L - T`
zeros, and — provided the written slot is freshly cleared, as in a fresh
buffer — the observation / next-observation / terminal positions `≥ T` are
zero (in general a reused slot keeps its previous contents there). -/
theorem c4_short_episode_amended (odim adim n l : Nat) (p : PathInput)
    (hwf : wellFormedPath p) (hn : 0 < n) (hTL : trueLen p < l) :
    (writeOps l p).length = 1 ∧
    (add_paths (clear_buffer odim adim n l) [p]).size = 1 ∧
    slotOf (add_paths (clear_buffer odim adim n l) [p]) 0 =
      { observations := p.observations.dropLast.take (trueLen p) ++
          List.replicate (l - trueLen p) (List.replicate odim 0)
      , next_observations := (p.observations.drop 1).take (trueLen p) ++
          List.replicate (l - trueLen p) (List.replicate odim 0)
      , actions := List.replicate adim 0 :: (p.actions.take (trueLen p) ++
          List.replicate (l - trueLen p) (List.replicate adim 0))
      , rewards := 0 :: (p.rewards.take (trueLen p) ++
          List.replicate (l - trueLen p) 0)
      , terminals := p.terminals.take (trueLen p) ++
          List.replicate (l - trueLen p) 0
      , masks := List.replicate (trueLen p) 1 ++
          List.replicate (l - trueLen p) 0 } := by
  obtain ⟨hobs, hrew, hterm, hmask⟩ := hwf
  have hmask' := maskLenOk_spec p hmask
  have hmax : max (trueLen p - l + 1) 1 = 1 := by omega
  have hfoldform : add_paths (clear_buffer odim adim n l) [p] =
      (writeOps l p).foldl applyWrite (clear_buffer odim adim n l) := rfl
  refine ⟨by rw [writeOps_length, hmax], ?_, ?_⟩
  · rw [hfoldform, foldl_size _ _ (by simp [clear_buffer]), writeOps_length, hmax]
    simp only [clear_buffer]
    omega
  · have := fresh_slot odim adim n l p 0 hobs hrew hterm hmask' (by omega) (by omega)
    rw [this]
    have hmin : min l (trueLen p) = trueLen p := Nat.min_eq_right (Nat.le_of_lt hTL)
    simp [hmin]

theorem c4_short_episode_amended_witness :
    (wellFormedPath pC4short ∧ 0 < 1 ∧ trueLen pC4short < 2) ∧
    ((writeOps 2 pC4short).length = 1 ∧
    (add_paths (clear_buffer 1 1 1 2) [pC4short]).size = 1 ∧
    slotOf (add_paths (clear_buffer 1 1 1 2) [pC4short]) 0 =
      { observations := pC4short.observations.dropLast.take (trueLen pC4short) ++
          List.replicate (2 - trueLen pC4short) (List.replicate 1 0)
      , next_observations := (pC4short.observations.drop 1).take (trueLen pC4short) ++
          List.replicate (2 - trueLen pC4short) (List.replicate 1 0)
      , actions := List.replicate 1 0 :: (pC4short.actions.take (trueLen pC4short) ++
          List.replicate (2 - trueLen pC4short) (List.replicate 1 0))
      , rewards := 0 :: (pC4short.rewards.take (trueLen pC4short) ++
          List.replicate (2 - trueLen pC4short) 0)
      , terminals := pC4short.terminals.take (trueLen pC4short) ++
          List.replicate (2 - trueLen pC4short) 0
      , masks := List.replicate (trueLen pC4short) 1 ++
          List.replicate (2 - trueLen pC4short) 0 }) :=
  ⟨⟨by decide, by decide, by decide⟩,
    c4_short_episode_amended 1 1 1 2 pC4short (by decide) (by decide) (by decide)⟩

/-! ### C6: action/reward padding -/

/-- C6 fails as stated: after a capacity-1 buffer has held a longer window,
ingesting the short episode leaves `actions[0] = [0]` and `actions[1] = [4]`
(the episode slice), but the tail position `2` of the action row still holds
the stale action `[6]` (and the reward tail holds `8`), not zero. -/
theorem c6_action_padding_cex :
    (slotOf (add_paths (add_paths (clear_buffer 1 1 1 2) [pC4long]) [pC4short]) 0).actions
      = [[0], [4], [6]] ∧
    (slotOf (add_paths (add_paths (clear_buffer 1 1 1 2) [pC4long]) [pC4short]) 0).rewards
      = [0, 3, 8] ∧
    ¬ (slotOf (add_paths (add_paths (clear_buffer 1 1 1 2) [pC4long]) [pC4short])
        0).actions.getD 2 [] = List.replicate 1 0 ∧
    ¬ (slotOf (add_paths (add_paths (clear_buffer 1 1 1 2) [pC4long]) [pC4short])
        0).rewards.getD 2 0 = 0 := by
  exact ⟨by decide, by decide, by decide, by decide⟩

/-- C6 amended: for every window stored by `add_paths`, `actions[0]` and
`rewards[0]` are zero — that leading slot is never written, whatever sequence
of episodes was ingested since the buffer was cleared; positions
`1 .. end-start` hold exactly the episode's action/reward slice; and the
remaining tail positions are left untouched by the write, hence zero exactly
when the slot is freshly cleared (a reused slot keeps its stale tail). -/
theorem c6_action_padding_amended (odim adim n l : Nat) (p : PathInput)
    (hwf : wellFormedPath p) (hcap : max (trueLen p - l + 1) 1 ≤ n) :
    (∀ ps : List PathInput, ∀ j, j < n →
      ((add_paths (clear_buffer odim adim n l) ps).actions.getD j []).getD 0 []
          = List.replicate adim 0 ∧
      ((add_paths (clear_buffer odim adim n l) ps).rewards.getD j []).getD 0 0 = 0) ∧
    (∀ s, s < max (trueLen p - l + 1) 1 →
      (slotOf (add_paths (clear_buffer odim adim n l) [p]) s).actions =
        List.replicate adim 0 :: ((p.actions.drop s).take (min l (trueLen p)) ++
          List.replicate (l - min l (trueLen p)) (List.replicate adim 0)) ∧
      (slotOf (add_paths (clear_buffer odim adim n l) [p]) s).rewards =
        0 :: ((p.rewards.drop s).take (min l (trueLen p)) ++
          List.replicate (l - min l (trueLen p)) 0)) := by
  obtain ⟨hobs, hrew, hterm, hmask⟩ := hwf
  have hmask' := maskLenOk_spec p hmask
  constructor
  · intro ps j hj
    have hz := headZero_add_paths odim adim n l ps
    have hmax : (add_paths (clear_buffer odim adim n l) ps).max_size = n := by
      rw [add_paths_eq_foldl, foldl_max_size]
      rfl
    obtain ⟨⟨ta, hta⟩, ⟨tr, htr⟩⟩ := hz j (by omega)
    rw [hta, htr]
    exact ⟨rfl, rfl⟩
  · intro s hs
    have := fresh_slot odim adim n l p s hobs hrew hterm hmask' hcap hs
    rw [this]
    exact ⟨rfl, rfl⟩

theorem c6_action_padding_amended_witness :
    (wellFormedPath pC1 ∧ max (trueLen pC1 - 2 + 1) 1 ≤ 3) ∧
    ((∀ ps : List PathInput, ∀ j, j < 3 →
      ((add_paths (clear_buffer 1 1 3 2) ps).actions.getD j []).getD 0 []
          = List.replicate 1 0 ∧
      ((add_paths (clear_buffer 1 1 3 2) ps).rewards.getD j []).getD 0 0 = 0) ∧
    (∀ s, s < max (trueLen pC1 - 2 + 1) 1 →
      (slotOf (add_paths (clear_buffer 1 1 3 2) [pC1]) s).actions =
        List.replicate 1 0 :: ((pC1.actions.drop s).take (min 2 (trueLen pC1)) ++
          List.replicate (2 - min 2 (trueLen pC1)) (List.replicate 1 0)) ∧
      (slotOf (add_paths (clear_buffer 1 1 3 2) [pC1]) s).rewards =
        0 :: ((pC1.rewards.drop s).take (min 2 (trueLen pC1)) ++
          List.replicate (2 - min 2 (trueLen pC1)) 0))) :=
  ⟨⟨by decide, by decide⟩, c6_action_padding_amended 1 1 3 2 pC1 (by decide) (by decide)⟩

/-! ### C5: masks are a prefix of ones followed by zeros -/

theorem maskRowsOZ_clear (odim adim n l : Nat) : maskRowsOZ (clear_buffer odim adim n l) := by
  intro j
  by_cases hj : j < n
  · refine ⟨0, l, ?_⟩
    simp only [clear_buffer]
    rw [getD_replicate' _ _ _ _ hj]
    simp
  · refine ⟨0, 0, ?_⟩
    simp only [clear_buffer]
    rw [List.getD_eq_getElem?_getD, List.getElem?_replicate]
    simp [hj]

theorem maskRowsOZ_applyWrite (b : SequentialReplayBuffer) (op : WriteOp)
    (hop : op.maskVals = List.replicate op.wlen 1) (h : maskRowsOZ b) :
    maskRowsOZ (applyWrite b op) := by
  intro j
  show onesThenZeros ((b.masks.set b.top _).getD j [])
  by_cases htop : b.top = j
  · subst htop
    by_cases hlt : b.top < b.masks.length
    · rw [getD_set_self _ _ _ _ hlt, hop, zeroFrom_writeSlice_ones]
      exact ⟨_, _, rfl⟩
    · rw [List.set_eq_of_length_le (by omega)]
      exact h b.top
  · rw [getD_set_ne _ _ _ _ _ htop]
    exact h j

/-- Every write produced by `writeOps` (for a mask of the correct physical
length) writes an all-ones mask slice of length `wlen`: the slice never
reaches past the first non-one mask entry. -/
theorem writeOps_maskVals (l : Nat) (p : PathInput) (op : WriteOp)
    (hmask : maskLenOk p) (hop : op ∈ writeOps l p) :
    op.maskVals = List.replicate op.wlen 1 := by
  have hmask' := maskLenOk_spec p hmask
  have hTle : pathLen p.masks p.actions.length ≤ p.actions.length :=
    pathLen_le p.masks p.actions.length hmask'
  unfold writeOps at hop
  simp only [List.mem_map, List.mem_range] at hop
  obtain ⟨strt, hstrt, rfl⟩ := hop
  have hsw : strt + min l (pathLen p.masks p.actions.length) ≤
      pathLen p.masks p.actions.length := by omega
  unfold mkWriteOp
  simp only
  have hw : min (strt + l) (strt + pathLen p.masks p.actions.length) - strt =
      min l (pathLen p.masks p.actions.length) := by omega
  rw [hw]
  cases hms : p.masks with
  | none => rfl
  | some m =>
    simp only
    have hT : pathLen p.masks p.actions.length = pathLen (some m) p.actions.length := by
      rw [hms]
    rw [hT] at hsw hTle
    exact ones_slice m strt (min l (pathLen (some m) p.actions.length))
      (by rw [hmask' m hms]; omega)
      (fun j hj => pathLen_ones m p.actions.length (hmask' m hms) j (by omega))

theorem maskRowsOZ_foldl (ops : List WriteOp) (b : SequentialReplayBuffer)
    (hops : ∀ op ∈ ops, op.maskVals = List.replicate op.wlen 1)
    (h : maskRowsOZ b) : maskRowsOZ (ops.foldl applyWrite b) := by
  induction ops generalizing b with
  | nil => exact h
  | cons op rest ih =>
    exact ih (applyWrite b op) (fun o ho => hops o (List.mem_cons_of_mem op ho))
      (maskRowsOZ_applyWrite b op (hops op (List.mem_cons_self op rest)) h)

theorem mem_opsOf (l : Nat) (ps : List PathInput) (op : WriteOp)
    (hop : op ∈ opsOf l ps) : ∃ p, p ∈ ps ∧ op ∈ writeOps l p := by
  induction ps with
  | nil => simp [opsOf] at hop
  | cons p rest ih =>
    rw [opsOf, List.foldr_cons, List.mem_append] at hop
    cases hop with
    | inl hin => exact ⟨p, List.mem_cons_self p rest, hin⟩
    | inr hin =>
      obtain ⟨q, hq, hqin⟩ := ih hin
      exact ⟨q, List.mem_cons_of_mem p hq, hqin⟩

/-- C5: every mask row stored after ingesting any batch of episodes (whose
supplied masks have the correct physical length) is a prefix of ones followed
by a suffix of zeros — a one never appears after a zero within one window. -/
theorem c5_mask_ones_then_zeros (odim adim n l : Nat) (ps : List PathInput)
    (hwf : ∀ p ∈ ps, maskLenOk p) (j : Nat) :
    ∃ a c, (add_paths (clear_buffer odim adim n l) ps).masks.getD j [] =
      List.replicate a 1 ++ List.replicate c 0 := by
  rw [add_paths_eq_foldl]
  refine maskRowsOZ_foldl _ _ (fun op hop => ?_) (maskRowsOZ_clear odim adim n l) j
  obtain ⟨p, hp, hpin⟩ := mem_opsOf _ ps op hop
  exact writeOps_maskVals _ p op (hwf p hp) hpin

theorem c5_mask_ones_then_zeros_witness :
    (∀ p ∈ [pC5], maskLenOk p) ∧
    (∃ a c, (add_paths (clear_buffer 1 1 2 2) [pC5]).masks.getD 0 [] =
      List.replicate a 1 ++ List.replicate c 0) :=
  ⟨by decide, c5_mask_ones_then_zeros 1 1 2 2 [pC5] (by decide) 0⟩

/-! ### C7: sampling from an empty buffer fails -/

/-- C7: `sample_batch` and the online `sample_starts` fail (the underlying
random draw over `[0, size)` is invalid) exactly when `size = 0`; whenever
`size > 0` both return a batch. -/
theorem c7_empty_sampling (b : SequentialReplayBuffer) (n : Nat) (rng : List Nat) :
    (sample_batch b n rng = none ↔ b.size = 0) ∧
    (sample_starts b n rng = none ↔ b.size = 0) := by
  unfold sample_batch sample_starts npRandint
  by_cases h : b.size = 0 <;> simp [h]

/-! ### C8: add_step always fails and changes nothing -/

/-- C8: for every buffer state and every argument tuple, `add_step` raises
the not-implemented error and leaves the buffer (top, size and all storage
arrays) unchanged. -/
theorem c8_add_step_rejected (b : SequentialReplayBuffer) (obs nxt act : List Int)
    (rew terminal : Int) :
    (add_step b obs nxt act rew terminal).1 = Except.error BufferError.notImplemented ∧
    (add_step b obs nxt act rew terminal).2 = b :=
  ⟨rfl, rfl⟩

/-! ### C10: an episode whose mask starts with zero -/

/-- Drawing a single in-range index returns the six rows of that slot. -/
theorem sample_batch_one (b : SequentialReplayBuffer) (i : Nat) (hi : i < b.size) :
    sample_batch b 1 [i] =
      some { observations := [b.observations.getD i []]
           , next_observations := [b.next_observations.getD i []]
           , actions := [b.actions.getD i []]
           , rewards := [b.rewards.getD i []]
           , terminals := [b.terminals.getD i []]
           , masks := [b.masks.getD i []] } := by
  unfold sample_batch npRandint
  rw [if_neg (by omega)]
  simp only [Option.map_some']
  rw [show List.range 1 = [0] from by decide]
  simp [Nat.mod_eq_of_lt hi]

theorem set_getD_self {α : Type} (l : List α) (j : Nat) (d : α) :
    l.set j (l.getD j d) = l := by
  induction l generalizing j with
  | nil => rfl
  | cons x xs ih =>
    cases j with
    | zero => rw [List.getD_cons_zero, List.set_cons_zero]
    | succ j' =>
      rw [List.getD_cons_succ, List.set_cons_succ, ih j']

theorem eq_singleton_of_length_one {α : Type} (l : List α) (d : α) (h : l.length = 1) :
    l = [l.getD 0 d] := by
  cases l with
  | nil => simp at h
  | cons x t =>
    cases t with
    | nil => rfl
    | cons y t' => simp at h

/-- C10: ingesting an episode whose supplied mask is zero at index 0 (true
length 0) still writes exactly one window: none of the five data arrays
changes, the written slot's mask becomes all zeros, `top` and `size` advance,
and the all-padding window is returned by `sample_batch` when its slot is
drawn. -/
theorem c10_zero_length_window (b : SequentialReplayBuffer) (p : PathInput)
    (harr : arraysLen b) (hrow : (b.masks.getD b.top []).length = b.lookback)
    (h0 : (p.masks.getD []).getD 0 1 = 0)
    (htoplt : b.top < b.max_size) (htopsize : b.top ≤ b.size)
    (hsz : b.size ≤ b.max_size) :
    (writeOps b.lookback p).length = 1 ∧
    (add_paths b [p]).observations = b.observations ∧
    (add_paths b [p]).next_observations = b.next_observations ∧
    (add_paths b [p]).actions = b.actions ∧
    (add_paths b [p]).rewards = b.rewards ∧
    (add_paths b [p]).terminals = b.terminals ∧
    (add_paths b [p]).masks = b.masks.set b.top (List.replicate b.lookback 0) ∧
    (add_paths b [p]).top = (b.top + 1) % b.max_size ∧
    (add_paths b [p]).size = (if b.size < b.max_size then b.size + 1 else b.size) ∧
    0 < (add_paths b [p]).size ∧
    sample_batch (add_paths b [p]) 1 [b.top] =
      some { observations := [b.observations.getD b.top []]
           , next_observations := [b.next_observations.getD b.top []]
           , actions := [b.actions.getD b.top []]
           , rewards := [b.rewards.getD b.top []]
           , terminals := [b.terminals.getD b.top []]
           , masks := [List.replicate b.lookback 0] } := by
  obtain ⟨ha1, ha2, ha3, ha4, ha5, ha6⟩ := harr
  obtain ⟨t, hmm⟩ : ∃ t, p.masks = some (0 :: t) := by
    cases hmm : p.masks with
    | none => rw [hmm] at h0; simp at h0
    | some m =>
      cases m with
      | nil => rw [hmm] at h0; simp at h0
      | cons x t =>
        rw [hmm] at h0
        simp only [Option.getD_some, List.getD_cons_zero] at h0
        exact ⟨t, by rw [h0]⟩
  have hT : trueLen p = 0 := by
    rw [trueLen, hmm, pathLen_some]
    show (firstNonOne (0 :: t)).getD p.actions.length = 0
    rw [show firstNonOne (0 :: t) = some 0 from by
      unfold firstNonOne
      rw [if_neg (by decide)]]
    rfl
  have hlen1 : (writeOps b.lookback p).length = 1 := by
    rw [writeOps_length]
    omega
  have hop0 : (writeOps b.lookback p).getD 0 defaultOp = defaultOp := by
    rw [writeOps_getD b.lookback p 0 (by omega), hT, hmm]
    unfold mkWriteOp defaultOp
    simp
  have hsingle : writeOps b.lookback p = [defaultOp] := by
    rw [← hop0]
    exact eq_singleton_of_length_one _ defaultOp hlen1
  have hone : add_paths b [p] = applyWrite b defaultOp := by
    show (writeOps b.lookback p).foldl applyWrite b = _
    rw [hsingle]
    rfl
  have hobsu : (applyWrite b defaultOp).observations = b.observations := by
    show b.observations.set b.top (writeSlice (b.observations.getD b.top []) 0 []) = _
    rw [writeSlice_vals_nil, set_getD_self]
  have hnxtu : (applyWrite b defaultOp).next_observations = b.next_observations := by
    show b.next_observations.set b.top
      (writeSlice (b.next_observations.getD b.top []) 0 []) = _
    rw [writeSlice_vals_nil, set_getD_self]
  have hactu : (applyWrite b defaultOp).actions = b.actions := by
    show b.actions.set b.top (writeSlice (b.actions.getD b.top []) 1 []) = _
    rw [writeSlice_vals_nil, set_getD_self]
  have hrewu : (applyWrite b defaultOp).rewards = b.rewards := by
    show b.rewards.set b.top (writeSlice (b.rewards.getD b.top []) 1 []) = _
    rw [writeSlice_vals_nil, set_getD_self]
  have htermu : (applyWrite b defaultOp).terminals = b.terminals := by
    show b.terminals.set b.top (writeSlice (b.terminals.getD b.top []) 0 []) = _
    rw [writeSlice_vals_nil, set_getD_self]
  have hmasku : (applyWrite b defaultOp).masks =
      b.masks.set b.top (List.replicate b.lookback 0) := by
    show b.masks.set b.top
      (zeroFrom (writeSlice (b.masks.getD b.top []) 0 []) 0) = _
    rw [writeSlice_vals_nil, zeroFrom_zero_eq, hrow]
  have hsize : (applyWrite b defaultOp).size =
      if b.size < b.max_size then b.size + 1 else b.size := rfl
  have hsizepos : 0 < (applyWrite b defaultOp).size := by
    rw [hsize]
    split <;> omega
  have htoplt' : b.top < (applyWrite b defaultOp).size := by
    rw [hsize]
    split <;> omega
  refine ⟨hlen1, ?_, ?_, ?_, ?_, ?_, ?_, ?_, ?_, ?_, ?_⟩
  all_goals rw [hone]
  · exact hobsu
  · exact hnxtu
  · exact hactu
  · exact hrewu
  · exact htermu
  · exact hmasku
  · rfl
  · rfl
  · exact hsizepos
  · rw [sample_batch_one _ _ htoplt', hobsu, hnxtu, hactu, hrewu, htermu, hmasku,
      getD_set_self _ _ _ _ (by omega)]

theorem c10_zero_length_window_witness :
    (arraysLen (clear_buffer 1 1 2 2) ∧
      ((clear_buffer 1 1 2 2).masks.getD (clear_buffer 1 1 2 2).top []).length = 2 ∧
      (pC10.masks.getD []).getD 0 1 = 0 ∧
      (clear_buffer 1 1 2 2).top < (clear_buffer 1 1 2 2).max_size ∧
      (clear_buffer 1 1 2 2).top ≤ (clear_buffer 1 1 2 2).size ∧
      (clear_buffer 1 1 2 2).size ≤ (clear_buffer 1 1 2 2).max_size) ∧
    ((writeOps 2 pC10).length = 1 ∧
    (add_paths (clear_buffer 1 1 2 2) [pC10]).observations =
      (clear_buffer 1 1 2 2).observations ∧
    (add_paths (clear_buffer 1 1 2 2) [pC10]).next_observations =
      (clear_buffer 1 1 2 2).next_observations ∧
    (add_paths (clear_buffer 1 1 2 2) [pC10]).actions = (clear_buffer 1 1 2 2).actions ∧
    (add_paths (clear_buffer 1 1 2 2) [pC10]).rewards = (clear_buffer 1 1 2 2).rewards ∧
    (add_paths (clear_buffer 1 1 2 2) [pC10]).terminals =
      (clear_buffer 1 1 2 2).terminals ∧
    (add_paths (clear_buffer 1 1 2 2) [pC10]).masks =
      (clear_buffer 1 1 2 2).masks.set (clear_buffer 1 1 2 2).top (List.replicate 2 0) ∧
    (add_paths (clear_buffer 1 1 2 2) [pC10]).top =
      ((clear_buffer 1 1 2 2).top + 1) % (clear_buffer 1 1 2 2).max_size ∧
    (add_paths (clear_buffer 1 1 2 2) [pC10]).size =
      (if (clear_buffer 1 1 2 2).size < (clear_buffer 1 1 2 2).max_size then
        (clear_buffer 1 1 2 2).size + 1 else (clear_buffer 1 1 2 2).size) ∧
    0 < (add_paths (clear_buffer 1 1 2 2) [pC10]).size ∧
    sample_batch (add_paths (clear_buffer 1 1 2 2) [pC10]) 1 [(clear_buffer 1 1 2 2).top] =
      some { observations := [(clear_buffer 1 1 2 2).observations.getD
              (clear_buffer 1 1 2 2).top []]
           , next_observations := [(clear_buffer 1 1 2 2).next_observations.getD
              (clear_buffer 1 1 2 2).top []]
           , actions := [(clear_buffer 1 1 2 2).actions.getD (clear_buffer 1 1 2 2).top []]
           , rewards := [(clear_buffer 1 1 2 2).rewards.getD (clear_buffer 1 1 2 2).top []]
           , terminals := [(clear_buffer 1 1 2 2).terminals.getD
              (clear_buffer 1 1 2 2).top []]
           , masks := [List.replicate 2 0] }) :=
  ⟨⟨by decide, by decide, by decide, by decide, by decide, by decide⟩,
    c10_zero_length_window (clear_buffer 1 1 2 2) pC10 (by decide) (by decide) (by decide)
      (by decide) (by decide) (by decide)⟩

/-! ### C2: ring overwrite -/

theorem getD_drop' {α : Type} (l : List α) (s i : Nat) (d : α) :
    (l.drop s).getD i d = l.getD (s + i) d := by
  rw [List.getD_eq_getElem?_getD, List.getD_eq_getElem?_getD, List.getElem?_drop]

theorem getD_take' {α : Type} (l : List α) (w i : Nat) (d : α) (h : i < w) :
    (l.take w).getD i d = l.getD i d := by
  rw [List.getD_eq_getElem?_getD, List.getD_eq_getElem?_getD, List.getElem?_take_of_lt h]

/-- C2: pushing `n + k` windows (`0 < k ≤ n`) into a fresh buffer of capacity
`n` leaves `size = n` and `top = (n + k) % n`, and slot `j` holds, for
`j < k`, the `j`-th (evicted) write overlaid in place by write `n + j` — one
of the `k` most recent windows — while slots `j ≥ k` hold write `j`
untouched; hence exactly the `n` most recent windows are reachable by
`sample_batch`. -/
theorem c2_ring_overwrite (odim adim n l k : Nat) (ps : List PathInput)
    (hk : 0 < k) (hkn : k ≤ n) (hlen : (opsOf l ps).length = n + k) :
    (add_paths (clear_buffer odim adim n l) ps).size = n ∧
    (add_paths (clear_buffer odim adim n l) ps).top = (n + k) % n ∧
    ∀ j, j < n →
      slotOf (add_paths (clear_buffer odim adim n l) ps) j =
        (if j < k then
          applyOpToSlot
            (applyOpToSlot (zeroWindow odim adim l) ((opsOf l ps).getD j defaultOp))
            ((opsOf l ps).getD (n + j) defaultOp)
        else applyOpToSlot (zeroWindow odim adim l) ((opsOf l ps).getD j defaultOp)) := by
  have hn : 0 < n := by omega
  have hb : add_paths (clear_buffer odim adim n l) ps =
      (opsOf l ps).foldl applyWrite (clear_buffer odim adim n l) :=
    add_paths_eq_foldl (clear_buffer odim adim n l) ps
  have htop0 : (clear_buffer odim adim n l).top = 0 := rfl
  have hN : (clear_buffer odim adim n l).max_size = n := rfl
  refine ⟨?_, ?_, ?_⟩
  · rw [hb, foldl_size _ _ (by simp [clear_buffer]), hlen, hN]
    simp only [clear_buffer]
    omega
  · rw [hb, foldl_top _ _ (by rw [htop0, hN]; omega), hlen, htop0, hN, Nat.zero_add]
  · intro j hj
    have hsplit : opsOf l ps = (opsOf l ps).take n ++ (opsOf l ps).drop n :=
      (List.take_append_drop n (opsOf l ps)).symm
    have htlen : ((opsOf l ps).take n).length = n := by
      rw [List.length_take, hlen]
      omega
    have hdlen : ((opsOf l ps).drop n).length = k := by
      rw [List.length_drop, hlen]
      omega
    have hfold2 : (opsOf l ps).foldl applyWrite (clear_buffer odim adim n l) =
        ((opsOf l ps).drop n).foldl applyWrite
          (((opsOf l ps).take n).foldl applyWrite (clear_buffer odim adim n l)) := by
      conv_lhs => rw [hsplit]
      rw [List.foldl_append]
    rw [hb, hfold2]
    set b1 := ((opsOf l ps).take n).foldl applyWrite (clear_buffer odim adim n l) with hb1
    have hb1arr : arraysLen b1 := foldl_arraysLen _ _ (arraysLen_clear odim adim n l)
    have hb1N : b1.max_size = n := by rw [hb1, foldl_max_size, hN]
    have hb1top : b1.top = 0 := by
      rw [hb1, foldl_top _ _ (by rw [htop0, hN]; omega), htop0, hN, htlen, Nat.zero_add,
        Nat.mod_self]
    have hslot1 : slotOf b1 j = applyOpToSlot (zeroWindow odim adim l)
        ((opsOf l ps).getD j defaultOp) := by
      have h := foldl_slotOf ((opsOf l ps).take n) (clear_buffer odim adim n l) j
        (arraysLen_clear odim adim n l) (by omega) (by rw [htop0, htlen, hN]; omega)
      rw [htop0, Nat.zero_add] at h
      rw [hb1, h, slotOf_clear odim adim n l j hj, getD_take' _ _ _ _ hj]
    by_cases hjk : j < k
    · have h := foldl_slotOf ((opsOf l ps).drop n) b1 j hb1arr (by omega)
        (by rw [hb1top, hdlen, hb1N]; omega)
      rw [hb1top, Nat.zero_add] at h
      rw [h, getD_drop', hslot1, if_pos hjk]
    · have h := foldl_slotOf_ne ((opsOf l ps).drop n) b1 j hb1arr (fun i hi => by
        rw [hb1top, Nat.zero_add, hb1N, Nat.mod_eq_of_lt (by omega)]
        omega)
      rw [h, hslot1, if_neg hjk]

theorem c2_ring_overwrite_witness :
    (0 < 1 ∧ 1 ≤ 2 ∧ (opsOf 1 [pC1]).length = 2 + 1) ∧
    ((add_paths (clear_buffer 1 1 2 1) [pC1]).size = 2 ∧
    (add_paths (clear_buffer 1 1 2 1) [pC1]).top = (2 + 1) % 2 ∧
    ∀ j, j < 2 →
      slotOf (add_paths (clear_buffer 1 1 2 1) [pC1]) j =
        (if j < 1 then
          applyOpToSlot
            (applyOpToSlot (zeroWindow 1 1 1) ((opsOf 1 [pC1]).getD j defaultOp))
            ((opsOf 1 [pC1]).getD (2 + j) defaultOp)
        else applyOpToSlot (zeroWindow 1 1 1) ((opsOf 1 [pC1]).getD j defaultOp))) :=
  ⟨⟨by decide, by decide, by decide⟩,
    c2_ring_overwrite 1 1 2 1 1 [pC1] (by decide) (by decide) (by decide)⟩

/-! ### C3: offline construction appends the wrong next-observation -/

/-- C3 fails on the code: the offline constructor appends
`next_observations[[0]]` — the FIRST next-observation — instead of the
terminal one, so the reconstructed observation sequence is `[0], [1], [1]`
rather than `[0], [1], [2]`, and the offline window's next-observations
`[[1], [1]]` differ from the online window's `[[1], [2]]`: the window sets
are not equal. -/
theorem c3_offline_terminal_obs_bug :
    (groupEpisodes (transitionsOf dC3)).length = 1 ∧
    (trajToPathInput ((groupEpisodes (transitionsOf dC3)).getD 0 [])).observations
      = [[0], [1], [1]] ∧
    (slotOf (mkOffline dC3 2).buf 0).next_observations = [[1], [1]] ∧
    (slotOf (add_paths (clear_buffer 1 1 2 2) [pC3true]) 0).next_observations
      = [[1], [2]] ∧
    ¬ (slotOf (mkOffline dC3 2).buf 0).next_observations =
      (slotOf (add_paths (clear_buffer 1 1 2 2) [pC3true]) 0).next_observations := by
  exact ⟨by decide, by decide, by decide, by decide, by decide⟩

/-! ### C9: the retained starts array -/

/-- C9 fails as stated: the offline constructor retains the ENTIRE flat
observation array as `starts` (here `[[0], [1]]`), not just the true
episode-start observations (here `[[0]]`). -/
theorem c9_starts_cex :
    (mkOffline dC9 2).starts = [[0], [1]] ∧
    episodeStarts dC9 = [[0]] ∧
    ¬ (mkOffline dC9 2).starts = episodeStarts dC9 := by
  exact ⟨by decide, by decide, by decide⟩

/-- C9 amended: the retained flat `starts` array is the entire observation
array of the dataset (every observed state, matching the documented intent
that all states serve as start candidates); it is fixed at construction and
the offline `sample_starts` draws its samples uniformly at random from that
array, failing only when it is empty. -/
theorem c9_starts_amended (d : Dataset) (lookback n : Nat) (rng : List Nat) :
    (mkOffline d lookback).starts = d.observations ∧
    (sample_starts_offline (mkOffline d lookback) n rng = none ↔
      d.observations.length = 0) ∧
    (0 < d.observations.length →
      sample_starts_offline (mkOffline d lookback) n rng =
        some ((List.range n).map (fun i =>
          d.observations.getD (rng.getD i 0 % d.observations.length) []))) := by
  have hs : (mkOffline d lookback).starts = d.observations := rfl
  refine ⟨rfl, ?_, ?_⟩
  · unfold sample_starts_offline npRandint
    rw [hs]
    by_cases h : d.observations.length = 0 <;> simp [h]
  · intro h
    unfold sample_starts_offline npRandint
    rw [hs, if_neg (by omega)]
    simp [List.map_map, Function.comp]

theorem c9_starts_amended_witness :
    0 < dC9.observations.length ∧
    ((mkOffline dC9 2).starts = dC9.observations ∧
    (sample_starts_offline (mkOffline dC9 2) 1 [0] = none ↔
      dC9.observations.length = 0) ∧
    (0 < dC9.observations.length →
      sample_starts_offline (mkOffline dC9 2) 1 [0] =
        some ((List.range 1).map (fun i =>
          dC9.observations.getD ([0].getD i 0 % dC9.observations.length) [])))) :=
  ⟨by decide, c9_starts_amended dC9 2 1 [0]⟩
